import Mathlib

/-
  Verification development for the browser-pal highlight anchoring and
  overlay-positioning subsystem.

  Shallow embedding of:
  - src/lib/overlay/position-calculator.ts (PositionCalculator)
  - src/lib/anchor-utils.ts (createAnchorFromRange, findRangeFromAnchor)
  - src/lib/overlay/highlight-overlay.ts (HighlightOverlayManager)
  - src/lib/editor-controller.ts (EditorController)

  DOM interactions (the dom-anchor-text-quote library calls, containment
  checks, client rectangles) are modelled by an explicit environment record;
  a call that may throw in the source is a value of type Except Unit.
  Machine pixel coordinates are modelled as integers.
-/

set_option autoImplicit false

namespace BrowserPal

/-- A DOM rectangle, with integer pixel coordinates. -/
structure DOMRect where
  left : Int
  top : Int
  width : Int
  height : Int
  deriving DecidableEq, Repr

/-- The empty string, the default for an absent context field. -/
def emptyString : String := ""

/-- TextAnchor from src/lib/storage.ts: exact quote plus surrounding context.
Lean reserves the source field name of the leading context, so the two
context fields are named pfx and sfx here. -/
structure TextAnchor where
  exact : String
  pfx : String
  sfx : String
  deriving DecidableEq, Repr

/-- The selector object returned by the dom-anchor-text-quote fromRange call
(per src/types/dom-anchor-text-quote.d.ts): exact text plus optional
context fields. -/
structure Quote where
  exact : String
  pfx : Option String
  sfx : Option String
  deriving DecidableEq, Repr

deriving instance DecidableEq for Except

/-- A DOM Range as observed by this subsystem: whether its endpoints exist
and lie inside the container, the text it spans, and its client
rectangles (an operation that may throw). -/
structure RangeModel where
  hasStartContainer : Bool
  hasEndContainer : Bool
  startInContainer : Bool
  endInContainer : Bool
  toStringResult : String
  clientRects : Except Unit (List DOMRect)
  deriving DecidableEq, Repr

/-- AnchorResult from src/lib/overlay/position-calculator.ts. -/
structure AnchorResult where
  rects : List DOMRect
  foundText : Option String
  deriving DecidableEq, Repr

/-- HighlightRects from src/lib/overlay/position-calculator.ts. -/
structure HighlightRects where
  id : String
  rects : List DOMRect
  isValid : Bool
  updatedExact : Option String
  deriving DecidableEq, Repr

/-- Environment of a PositionCalculator instance: the outcome of the
dom-anchor-text-quote toRange call for each anchor (which may throw, return
null, or return a range), and the bounding client rectangle of the
container. -/
structure CalcEnv where
  toRange : TextAnchor → Except Unit (Option RangeModel)
  containerRect : DOMRect

namespace PositionCalculator

/-- PositionCalculator.getRectsForAnchor: resolves the anchor via toRange,
rejects ranges with endpoints outside the container, and returns the found
text plus client rectangles; every exception is caught and turned into the
empty result. -/
def getRectsForAnchor (env : CalcEnv) (anchor : TextAnchor) : AnchorResult :=
  match env.toRange anchor with
  | Except.error _ => { rects := [], foundText := none }
  | Except.ok none => { rects := [], foundText := none }
  | Except.ok (some range) =>
    if range.startInContainer = true ∧ range.endInContainer = true then
      match range.clientRects with
      | Except.error _ => { rects := [], foundText := none }
      | Except.ok rs => { rects := rs, foundText := some range.toStringResult }
    else
      { rects := [], foundText := none }

/-- PositionCalculator.toContainerRelative: re-bases viewport rectangles to
container-relative coordinates. -/
def toContainerRelative (env : CalcEnv) (rects : List DOMRect) : List DOMRect :=
  rects.map fun r =>
    { left := r.left - env.containerRect.left
      top := r.top - env.containerRect.top
      width := r.width
      height := r.height }

/-- One step of PositionCalculator.calculateAll for a single (id, anchor)
pair. The updatedExact computation mirrors the source condition
result.foundText && result.foundText !== anchor.exact, including the
falsiness of the empty string. -/
def calcOne (env : CalcEnv) (h : String × TextAnchor) : HighlightRects :=
  let result := getRectsForAnchor env h.2
  let containerRects := toContainerRelative env result.rects
  let updatedExact : Option String :=
    match result.foundText with
    | some t => if t ≠ "" ∧ t ≠ h.2.exact then some t else none
    | none => none
  { id := h.1
    rects := containerRects
    isValid := decide (0 < containerRects.length)
    updatedExact := updatedExact }

/-- PositionCalculator.calculateAll: the per-anchor batch pass. -/
def calculateAll (env : CalcEnv) (highlights : List (String × TextAnchor)) :
    List HighlightRects :=
  highlights.map (calcOne env)

end PositionCalculator

/-- Environment of the anchor-utils functions for a given container: whether
the container is connected to the document, and the outcome of the
dom-anchor-text-quote toRange call for each anchor. -/
structure AnchorEnv where
  isConnected : Bool
  toRange : TextAnchor → Except Unit (Option RangeModel)

namespace AnchorUtils

/-- createAnchorFromRange from src/lib/anchor-utils.ts. Its only input
dependence is the outcome of the dom-anchor-text-quote fromRange call
(which may throw or return a selector); the guard quote && quote.exact
means a selector with an empty exact field is rejected, and absent context
fields default to the empty string. -/
def createAnchorFromRange (fromRangeResult : Except Unit (Option Quote)) :
    Option TextAnchor :=
  match fromRangeResult with
  | Except.error _ => none
  | Except.ok none => none
  | Except.ok (some q) =>
    if q.exact ≠ "" then
      some { exact := q.exact, pfx := q.pfx.getD emptyString, sfx := q.sfx.getD emptyString }
    else
      none

/-- findRangeFromAnchor from src/lib/anchor-utils.ts: returns null for a
disconnected container, a null range, missing endpoints, or endpoints
outside the container; any exception is caught and turned into null. -/
def findRangeFromAnchor (env : AnchorEnv) (anchor : TextAnchor) :
    Option RangeModel :=
  if env.isConnected = false then none
  else
    match env.toRange anchor with
    | Except.error _ => none
    | Except.ok none => none
    | Except.ok (some range) =>
      if range.hasStartContainer = false ∨ range.hasEndContainer = false then
        none
      else if range.startInContainer = false ∨ range.endInContainer = false then
        none
      else
        some range

end AnchorUtils

/-
  Insertion-ordered association lists, the embedding of the JavaScript Map
  instances used for highlight state (Map.set replaces in place or appends,
  Map.delete removes the entry, Map.get looks the key up).
-/

/-- Map.get on an insertion-ordered association list. -/
def alGet {α : Type} : List (String × α) → String → Option α
  | [], _ => none
  | (k', v) :: rest, k => if k' = k then some v else alGet rest k

/-- Map.set on an insertion-ordered association list: replaces the value in
place when the key is present, appends otherwise. -/
def alSet {α : Type} : List (String × α) → String → α → List (String × α)
  | [], k, v => [(k, v)]
  | (k', v') :: rest, k, v =>
    if k' = k then (k, v) :: rest else (k', v') :: alSet rest k v

/-- Map.delete on an insertion-ordered association list. -/
def alDelete {α : Type} : List (String × α) → String → List (String × α)
  | [], _ => []
  | (k', v) :: rest, k =>
    if k' = k then alDelete rest k else (k', v) :: alDelete rest k

/-- The update event surface of the overlay manager: emitted when
recalculation finds that the text at a highlight's anchor differs from the
stored exact text (as imported by EditorController from
src/lib/overlay/highlight-overlay.ts). -/
structure HighlightUpdatedEvent where
  highlightId : String
  newExact : String
  deriving DecidableEq, Repr

/-- State of a HighlightOverlayManager instance: the tracked highlights
(insertion-ordered map id to anchor), the overlay elements keyed by
highlight id (observed through their rectangles; the empty list stands for
an absent entry, which is observationally exact because
updateOverlayElements never stores an empty element list), the coalescing
flag, and the number of animation-frame callbacks currently queued. -/
structure OverlayState where
  highlights : List (String × TextAnchor)
  overlays : String → List DOMRect
  pendingRecalc : Bool
  scheduledFrames : Nat

namespace HighlightOverlayManager

open PositionCalculator

/-- HighlightOverlayManager.updateOverlayElements: discards every previous
element of the highlight and, when the rectangle list is non-empty, creates
one element per rectangle. -/
def updateOverlayElements (st : OverlayState) (id : String)
    (rects : List DOMRect) : OverlayState :=
  { st with overlays := fun k => if k = id then rects else st.overlays k }

/-- Modelled from the spec: HighlightOverlayManager.renderHighlight. The file
src/lib/overlay/highlight-overlay.ts is a stale snapshot that predates the
AnchorResult return type of getRectsForAnchor; the current manager (the one
imported by EditorController) feeds result.rects through toContainerRelative
exactly as the stale one fed the plain rectangle list, per spec 4.3
(addHighlight registers and immediately renders). -/
def renderHighlight (env : CalcEnv) (st : OverlayState) (id : String)
    (anchor : TextAnchor) : OverlayState :=
  let result := getRectsForAnchor env anchor
  let containerRects := toContainerRelative env result.rects
  updateOverlayElements st id containerRects

/-- HighlightOverlayManager.addHighlight: registers the highlight and
immediately renders it. -/
def addHighlight (env : CalcEnv) (st : OverlayState) (id : String)
    (anchor : TextAnchor) : OverlayState :=
  renderHighlight env { st with highlights := alSet st.highlights id anchor }
    id anchor

/-- HighlightOverlayManager.removeHighlight: unregisters the highlight and
clears its overlay elements. -/
def removeHighlight (st : OverlayState) (id : String) : OverlayState :=
  { st with
      highlights := alDelete st.highlights id
      overlays := fun k => if k = id then [] else st.overlays k }

/-- HighlightOverlayManager.scheduleRecalculation: returns immediately when a
recalculation is already pending, otherwise sets the pending flag and queues
one animation-frame callback. -/
def scheduleRecalculation (st : OverlayState) : OverlayState :=
  if st.pendingRecalc then st
  else
    { st with
        pendingRecalc := true
        scheduledFrames := st.scheduledFrames + 1 }

/-- The repaint loop of HighlightOverlayManager.recalculateAll: one
updateOverlayElements call per batch result. -/
def applyResults (st : OverlayState) (results : List HighlightRects) :
    OverlayState :=
  results.foldl (fun s r => updateOverlayElements s r.id r.rects) st

/-- HighlightOverlayManager.recalculateAll: recomputes the geometry of every
tracked highlight through PositionCalculator.calculateAll and repaints. -/
def recalculateAll (env : CalcEnv) (st : OverlayState) : OverlayState :=
  applyResults st (calculateAll env st.highlights)

/-- Modelled from the spec: the drift update surface of recalculateAll. The
current HighlightOverlayManager — the one whose setUpdateHandler and
HighlightUpdatedEvent are imported by EditorController (editor-controller
source, setupEventListeners) and consumed by the sidepanel editor — is
missing from the sources, which hold a stale copy without it. Per spec 4.3,
when recalculation detects drift it emits one event per drifted highlight,
with the found text, to the registered update handler; the second component
is the list of events delivered to that handler. -/
def recalculateAllEvents (env : CalcEnv) (st : OverlayState) :
    OverlayState × List HighlightUpdatedEvent :=
  let results := calculateAll env st.highlights
  (applyResults st results,
    results.filterMap fun r =>
      r.updatedExact.map fun s => { highlightId := r.id, newExact := s })

/-- The animation-frame callbacks queued by scheduleRecalculation: each one
runs recalculateAll once and clears the pending flag. Returns the final
state and the number of recomputation passes executed. -/
def runFrameCallbacks (env : CalcEnv) : Nat → OverlayState → OverlayState × Nat
  | 0, st => (st, 0)
  | n + 1, st =>
    let st' := { recalculateAll env st with pendingRecalc := false }
    let rest := runFrameCallbacks env n st'
    (rest.1, rest.2 + 1)

/-- Fires the next animation frame: every queued callback runs. -/
def fireFrame (env : CalcEnv) (st : OverlayState) : OverlayState × Nat :=
  runFrameCallbacks env st.scheduledFrames { st with scheduledFrames := 0 }

end HighlightOverlayManager

/-
  EditorController (editor-controller source), the façade owning the
  highlight map.
-/

/-- ThreadMessage from src/lib/storage.ts. -/
structure ThreadMessage where
  id : String
  role : String
  content : String
  createdAt : Nat
  deriving DecidableEq, Repr

/-- Thread from src/lib/storage.ts. -/
structure Thread where
  id : String
  messages : List ThreadMessage
  collapsed : Bool
  createdAt : Nat
  deriving DecidableEq, Repr

/-- Highlight from src/lib/storage.ts. -/
structure Highlight where
  id : String
  anchor : TextAnchor
  thread : Option Thread
  createdAt : Nat
  deriving DecidableEq, Repr

/-- A Partial Highlight record: each present field is assigned over the
stored highlight by Object.assign. -/
structure HighlightUpdate where
  id : Option String := none
  anchor : Option TextAnchor := none
  thread : Option (Option Thread) := none
  createdAt : Option Nat := none

/-- Object.assign of a Partial Highlight onto a stored highlight. -/
def objectAssign (h : Highlight) (u : HighlightUpdate) : Highlight :=
  { id := u.id.getD h.id
    anchor := u.anchor.getD h.anchor
    thread := u.thread.getD h.thread
    createdAt := u.createdAt.getD h.createdAt }

/-- State of an EditorController instance: its exclusively-owned highlight
map plus the overlay manager it drives. -/
structure ECState where
  highlights : List (String × Highlight)
  overlay : OverlayState

namespace EditorController

/-- EditorController.removeHighlight: deletes the map entry and tells the
overlay manager to drop the highlight. -/
def removeHighlight (st : ECState) (id : String) : ECState :=
  { highlights := alDelete st.highlights id
    overlay := HighlightOverlayManager.removeHighlight st.overlay id }

/-- EditorController.getHighlight. -/
def getHighlight (st : ECState) (id : String) : Option Highlight :=
  alGet st.highlights id

/-- EditorController.updateHighlight: Object.assign of the partial update
onto the stored highlight when the id is present, no-op otherwise. -/
def updateHighlight (st : ECState) (id : String) (u : HighlightUpdate) :
    ECState :=
  match alGet st.highlights id with
  | none => st
  | some h => { st with highlights := alSet st.highlights id (objectAssign h u) }

/-- The selection state observed by EditorController.insertAtCursor: no
selection (or an empty range list), a selection outside the editor, or a
selection inside the editor given by its character offsets. -/
inductive DomSelection : Type where
  | noSelection : DomSelection
  | foreign : DomSelection
  | inEditor (startPos stopPos : Nat) : DomSelection
  deriving DecidableEq, Repr

/-- EditorController.insertAtCursor over the editor content viewed as a
character sequence: with no selection or a foreign selection the content is
appended at the end; with a selection inside the editor the selected
characters are deleted (range.deleteContents) and the parsed fragment is
inserted at the cursor (range.insertNode). The cursor move and empty-state
refresh do not affect the content. -/
def insertAtCursor (content html : List Char) (sel : DomSelection) :
    List Char :=
  match sel with
  | DomSelection.noSelection => content ++ html
  | DomSelection.foreign => content ++ html
  | DomSelection.inEditor startPos stopPos =>
    content.take startPos ++ html ++ content.drop stopPos

end EditorController

/-
  Text-quote capture and resolution. The algorithm lives in the third-party
  dom-anchor-text-quote library, present in the sources only as the type
  declaration src/types/dom-anchor-text-quote.d.ts; it is modelled here from
  spec 4.1 over a container viewed as a character sequence.
-/

namespace TextQuote

/-- Context window length for capture (spec 3: the source uses a fixed bound
of roughly 20 to 32 characters; 32 here). -/
def contextLength : Nat := 32

/-- The characters of the container text from offset s (inclusive) to offset
e (exclusive). -/
def extractText (doc : List Char) (s e : Nat) : List Char :=
  (doc.drop s).take (e - s)

/-- Modelled from the spec: the fromRange capture of dom-anchor-text-quote
(spec 4.1 Capture): the exact selected text plus up to contextLength
characters of surrounding context. -/
def modelFromRange (doc : List Char) (s e : Nat) : Quote :=
  { exact := String.mk (extractText doc s e)
    pfx := some (String.mk ((doc.take s).drop (s - contextLength)))
    sfx := some (String.mk ((doc.drop e).take contextLength)) }

/-- Whether the pattern occurs in the document text at offset i. -/
def occursAt (doc pat : List Char) (i : Nat) : Bool :=
  decide ((doc.drop i).take pat.length = pat)

/-- Every offset at which the pattern occurs, in document order. -/
def occurrences (doc pat : List Char) : List Nat :=
  (List.range (doc.length + 1)).filter (occursAt doc pat)

/-- Length of the longest common leading run of two character sequences. -/
def matchLen : List Char → List Char → Nat
  | a :: as, b :: bs => if a = b then matchLen as bs + 1 else 0
  | _, _ => 0

/-- Context score of a candidate occurrence: how much of the stored leading
context matches the text just before it, plus how much of the stored
trailing context matches the text just after it (spec 4.1: disambiguation
by scoring context match). -/
def contextScore (doc pat pfxText sfxText : List Char) (i : Nat) : Nat :=
  matchLen (doc.take i).reverse pfxText.reverse +
    matchLen (doc.drop (i + pat.length)) sfxText

/-- The first element of the list attaining the maximal score (spec 4.1:
deterministic tie-break, first occurrence in document order). -/
def argmaxFirst (f : Nat → Nat) : List Nat → Option Nat
  | [] => none
  | x :: xs =>
    match argmaxFirst f xs with
    | none => some x
    | some y => if f x < f y then some y else some x

/-- Modelled from the spec: the toRange resolution of dom-anchor-text-quote
(spec 4.1 Resolve): search the container text for the exact quote,
disambiguate among occurrences by context score with a deterministic
first-in-document-order tie-break, and return the span of the chosen
occurrence; not-found when the quote occurs nowhere, and an empty quote
never matches (spec 8: an empty exact must fail gracefully). Never a
partial or fuzzy match. -/
def modelToRange (doc : List Char) (anchor : TextAnchor) : Option (Nat × Nat) :=
  let pat := anchor.exact.data
  if pat.isEmpty then none
  else
    match argmaxFirst (contextScore doc pat anchor.pfx.data anchor.sfx.data)
        (occurrences doc pat) with
    | none => none
    | some i => some (i, i + pat.length)

/-- The live range handed back for a resolved span: both endpoints are text
positions of the container, and the range spans the found text. The client
rectangle geometry is not modelled here. -/
def rangeModelOfSpan (doc : List Char) (span : Nat × Nat) : RangeModel :=
  { hasStartContainer := true
    hasEndContainer := true
    startInContainer := true
    endInContainer := true
    toStringResult := String.mk (extractText doc span.1 span.2)
    clientRects := Except.ok [] }

/-- The anchor-utils environment of a connected container whose text content
is the given character sequence, resolving anchors through the modelled
text-quote search. -/
def envOfDoc (doc : List Char) : AnchorEnv :=
  { isConnected := true
    toRange := fun a => Except.ok ((modelToRange doc a).map (rangeModelOfSpan doc)) }

end TextQuote

/-- The rectangles assigned to a key by the last batch result for that key,
if any: the specification of the repaint fold of recalculateAll. -/
def lastUpdate : List HighlightRects → String → Option (List DOMRect)
  | [], _ => none
  | r :: rest, k =>
    match lastUpdate rest k with
    | some v => some v
    | none => if k = r.id then some r.rects else none

/-
  Concrete fixtures: environments and states used to evaluate the
  definitions at specific inputs.
-/

/-- A highlight id. -/
def hl1 : String := "h1"

/-- The drifted text found at the anchor of anchorFoo. -/
def foodText : String := "food"

/-- An anchor whose stored exact text is three characters long. -/
def anchorFoo : TextAnchor := { exact := "foo", pfx := "a ", sfx := " b" }

/-- A one-line client rectangle. -/
def rect1 : DOMRect := { left := 8, top := 4, width := 30, height := 10 }

/-- A container bounding rectangle. -/
def crect : DOMRect := { left := 2, top := 1, width := 100, height := 50 }

/-- A resolved range whose text differs from the stored exact text of
anchorFoo: the user edited the highlighted text. -/
def rangeDrift : RangeModel :=
  { hasStartContainer := true
    hasEndContainer := true
    startInContainer := true
    endInContainer := true
    toStringResult := "food"
    clientRects := Except.ok [rect1] }

/-- A calculator environment in which every anchor resolves to the drifted
range. -/
def envDrift : CalcEnv :=
  { toRange := fun _ => Except.ok (some rangeDrift), containerRect := crect }

/-- An overlay manager tracking one highlight, with no pending
recalculation. -/
def stDrift : OverlayState :=
  { highlights := [(hl1, anchorFoo)]
    overlays := fun _ => []
    pendingRecalc := false
    scheduledFrames := 0 }

/-- An anchor stored for unrendered text. -/
def anchorAbc : TextAnchor := { exact := "abc", pfx := "", sfx := "" }

/-- A range that resolves (the exact text is found) but yields no client
rectangles, as a range over text inside a hidden element does. -/
def rangeHidden : RangeModel :=
  { hasStartContainer := true
    hasEndContainer := true
    startInContainer := true
    endInContainer := true
    toStringResult := "abc"
    clientRects := Except.ok [] }

/-- A calculator environment in which resolution succeeds with no client
rectangles. -/
def envHidden : CalcEnv :=
  { toRange := fun _ => Except.ok (some rangeHidden), containerRect := crect }

/-- A highlight id for the hidden-text batch. -/
def hlA : String := "hA"

/-- A calculator environment in which the toRange call throws. -/
def envThrow : CalcEnv :=
  { toRange := fun _ => Except.error (), containerRect := crect }

/-- An overlay manager with nothing tracked and nothing pending. -/
def stEmpty : OverlayState :=
  { highlights := []
    overlays := fun _ => []
    pendingRecalc := false
    scheduledFrames := 0 }

/-- An anchor-utils environment over a disconnected container. -/
def envDisc : AnchorEnv :=
  { isConnected := false, toRange := fun _ => Except.ok none }

/-- A capture result with no context on either side: a selection touching
both document boundaries. -/
def quoteX : Quote := { exact := "x", pfx := none, sfx := none }

/-- The container text of the concrete scenario of spec 8. -/
def quickDoc : List Char := "The quick brown fox jumps.".data

/-- Editor content used for the insertion theorems. -/
def listB : List Char := "ab".data

/-- Selected characters for the insertion theorems. -/
def listS : List Char := "cd".data

/-- Trailing characters for the insertion theorems. -/
def listA2 : List Char := "ef".data

/-- Fragment markup inserted by the insertion theorems. -/
def listHtml : List Char := "XY".data

/-- A stored highlight. -/
def hiA : Highlight := { id := "a", anchor := anchorFoo, thread := none, createdAt := 1 }

/-- Another stored highlight. -/
def hiB : Highlight := { id := "b", anchor := anchorAbc, thread := none, createdAt := 2 }

/-- An editor controller owning two highlights. -/
def ecSt : ECState :=
  { highlights := [(hl1, hiA), (hlA, hiB)], overlay := stDrift }

/-- An empty partial update. -/
def updNone : HighlightUpdate := {}

/-- An id present in no map of ecSt. -/
def idZ : String := "zz"

/-- The anchor createAnchorFromRange returns for the modelled capture of the
selection from offset s to offset e. -/
def capturedAnchor (doc : List Char) (s e : Nat) : TextAnchor :=
  { exact := (TextQuote.modelFromRange doc s e).exact
    pfx := (TextQuote.modelFromRange doc s e).pfx.getD emptyString
    sfx := (TextQuote.modelFromRange doc s e).sfx.getD emptyString }

/-
  Helper lemmas about the association-list operations.
-/

theorem alGet_alDelete_self {α : Type} (m : List (String × α)) (k : String) :
    alGet (alDelete m k) k = none := by
  induction m with
  | nil => rfl
  | cons p rest ih =>
    obtain ⟨k', v⟩ := p
    by_cases h : k' = k
    · simpa [alDelete, h] using ih
    · simpa [alDelete, alGet, h] using ih

theorem alGet_alDelete_ne {α : Type} (m : List (String × α)) (k k' : String)
    (h : k' ≠ k) : alGet (alDelete m k) k' = alGet m k' := by
  induction m with
  | nil => rfl
  | cons p rest ih =>
    obtain ⟨k0, v⟩ := p
    by_cases h0 : k0 = k
    · subst h0
      simp [alDelete, alGet, Ne.symm h, ih]
    · by_cases h1 : k0 = k'
      · simp [alDelete, alGet, h0, h1, h]
      · simp [alDelete, alGet, h0, h1, ih]

theorem alDelete_of_absent {α : Type} (m : List (String × α)) (k : String)
    (h : alGet m k = none) : alDelete m k = m := by
  induction m with
  | nil => rfl
  | cons p rest ih =>
    obtain ⟨k0, v⟩ := p
    by_cases h0 : k0 = k
    · simp [alGet, h0] at h
    · simp [alGet, h0] at h
      simp [alDelete, h0, ih h]

theorem alGet_alSet_self {α : Type} (m : List (String × α)) (k : String) (v : α) :
    alGet (alSet m k v) k = some v := by
  induction m with
  | nil => simp [alSet, alGet]
  | cons p rest ih =>
    obtain ⟨k0, v0⟩ := p
    by_cases h0 : k0 = k
    · simp [alSet, alGet, h0]
    · simp [alSet, alGet, h0, ih]

theorem alGet_alSet_ne {α : Type} (m : List (String × α)) (k k' : String) (v : α)
    (h : k' ≠ k) : alGet (alSet m k v) k' = alGet m k' := by
  induction m with
  | nil => simp [alSet, alGet, Ne.symm h]
  | cons p rest ih =>
    obtain ⟨k0, v0⟩ := p
    by_cases h0 : k0 = k
    · subst h0
      simp [alSet, alGet, Ne.symm h]
    · simp [alSet, alGet, h0, ih]

/-
  Helper lemmas about the position calculator.
-/

namespace PositionCalculator

theorem getRectsForAnchor_cases (env : CalcEnv) (a : TextAnchor) :
    getRectsForAnchor env a = { rects := [], foundText := none } ∨
    ∃ r rs, env.toRange a = Except.ok (some r) ∧ r.startInContainer = true ∧
      r.endInContainer = true ∧ r.clientRects = Except.ok rs ∧
      getRectsForAnchor env a = { rects := rs, foundText := some r.toStringResult } := by
  unfold getRectsForAnchor
  cases htr : env.toRange a with
  | error e => exact Or.inl rfl
  | ok o =>
    cases o with
    | none => exact Or.inl rfl
    | some r =>
      dsimp only
      by_cases hc : r.startInContainer = true ∧ r.endInContainer = true
      · rw [if_pos hc]
        cases hcr : r.clientRects with
        | error e => exact Or.inl rfl
        | ok rs => exact Or.inr ⟨r, rs, rfl, hc.1, hc.2, hcr, rfl⟩
      · rw [if_neg hc]
        exact Or.inl rfl

theorem getRectsForAnchor_of_error (env : CalcEnv) (a : TextAnchor)
    (h : env.toRange a = Except.error ()) :
    getRectsForAnchor env a = { rects := [], foundText := none } := by
  unfold getRectsForAnchor
  rw [h]

theorem getRectsForAnchor_foundText_none (env : CalcEnv) (a : TextAnchor)
    (h : (getRectsForAnchor env a).foundText = none) :
    (getRectsForAnchor env a).rects = [] := by
  rcases getRectsForAnchor_cases env a with hc | ⟨r, rs, _, _, _, _, hc⟩
  · rw [hc]
  · rw [hc] at h
    simp at h

theorem toContainerRelative_eq_nil_iff (env : CalcEnv) (rects : List DOMRect) :
    toContainerRelative env rects = [] ↔ rects = [] := by
  simp [toContainerRelative]

theorem calcOne_eval (env : CalcEnv) (p : String × TextAnchor) :
    calcOne env p =
      { id := p.1
        rects := toContainerRelative env (getRectsForAnchor env p.2).rects
        isValid :=
          decide (0 < (toContainerRelative env (getRectsForAnchor env p.2).rects).length)
        updatedExact :=
          match (getRectsForAnchor env p.2).foundText with
          | some t => if t ≠ "" ∧ t ≠ p.2.exact then some t else none
          | none => none } := rfl

theorem calcOne_isValid_false_iff (env : CalcEnv) (p : String × TextAnchor) :
    (calcOne env p).isValid = false ↔ (calcOne env p).rects = [] := by
  rw [calcOne_eval]
  simp [List.length_eq_zero]

theorem calcOne_of_foundText_none (env : CalcEnv) (p : String × TextAnchor)
    (h : (getRectsForAnchor env p.2).foundText = none) :
    (calcOne env p).isValid = false ∧ (calcOne env p).rects = [] ∧
      (calcOne env p).updatedExact = none := by
  have hr := getRectsForAnchor_foundText_none env p.2 h
  rw [calcOne_eval]
  simp [hr, h, toContainerRelative]

theorem calcOne_updatedExact_some (env : CalcEnv) (p : String × TextAnchor)
    (s : String) (h : (calcOne env p).updatedExact = some s) :
    (getRectsForAnchor env p.2).foundText = some s ∧ s ≠ "" ∧ s ≠ p.2.exact := by
  rw [calcOne_eval] at h
  simp only at h
  cases hf : (getRectsForAnchor env p.2).foundText with
  | none => rw [hf] at h; simp at h
  | some t =>
    rw [hf] at h
    dsimp only at h
    by_cases hc : t ≠ "" ∧ t ≠ p.2.exact
    · rw [if_pos hc] at h
      obtain rfl : t = s := by injection h
      exact ⟨rfl, hc.1, hc.2⟩
    · rw [if_neg hc] at h
      simp at h

end PositionCalculator

/-
  Helper lemmas about the overlay manager.
-/

namespace HighlightOverlayManager

open PositionCalculator

theorem updateOverlayElements_highlights (st : OverlayState) (id : String)
    (rects : List DOMRect) :
    (updateOverlayElements st id rects).highlights = st.highlights := rfl

theorem applyResults_highlights (rs : List HighlightRects) (st : OverlayState) :
    (applyResults st rs).highlights = st.highlights := by
  induction rs generalizing st with
  | nil => rfl
  | cons r rest ih => exact ih (updateOverlayElements st r.id r.rects)

theorem applyResults_overlays (rs : List HighlightRects) (st : OverlayState)
    (k : String) :
    (applyResults st rs).overlays k =
      match lastUpdate rs k with
      | some v => v
      | none => st.overlays k := by
  induction rs generalizing st with
  | nil => rfl
  | cons r rest ih =>
    show (applyResults (updateOverlayElements st r.id r.rects) rest).overlays k = _
    rw [ih]
    cases h : lastUpdate rest k with
    | some v => simp [lastUpdate, h]
    | none =>
      by_cases hk : k = r.id
      · subst hk
        simp [lastUpdate, h, updateOverlayElements]
      · simp [lastUpdate, h, hk, updateOverlayElements]

theorem recalculateAll_highlights (env : CalcEnv) (st : OverlayState) :
    (recalculateAll env st).highlights = st.highlights :=
  applyResults_highlights _ st

theorem applyResults_overlays_idem (rs : List HighlightRects) (st : OverlayState)
    (k : String) :
    (applyResults (applyResults st rs) rs).overlays k =
      (applyResults st rs).overlays k := by
  rw [applyResults_overlays, applyResults_overlays]
  cases lastUpdate rs k <;> rfl

theorem scheduleRecalculation_of_pending (st : OverlayState)
    (h : st.pendingRecalc = true) : scheduleRecalculation st = st := by
  simp [scheduleRecalculation, h]

theorem scheduleRecalculation_iterate_of_pending (n : Nat) (st : OverlayState)
    (h : st.pendingRecalc = true) : scheduleRecalculation^[n] st = st := by
  induction n with
  | zero => rfl
  | succ m ih =>
    rw [Function.iterate_succ_apply, scheduleRecalculation_of_pending st h, ih]

theorem runFrameCallbacks_passes (env : CalcEnv) (n : Nat) :
    ∀ st : OverlayState, (runFrameCallbacks env n st).2 = n := by
  induction n with
  | zero => intro st; rfl
  | succ m ih =>
    intro st
    show (runFrameCallbacks env m _).2 + 1 = m + 1
    rw [ih]

end HighlightOverlayManager

/-
  Helper lemmas about the modelled text-quote resolution.
-/

namespace TextQuote

theorem argmaxFirst_of_ne_nil (f : Nat → Nat) (l : List Nat) (h : l ≠ []) :
    ∃ y, argmaxFirst f l = some y := by
  cases l with
  | nil => exact absurd rfl h
  | cons x xs =>
    cases hx : argmaxFirst f xs with
    | none => exact ⟨x, by simp [argmaxFirst, hx]⟩
    | some y =>
      by_cases hc : f x < f y
      · exact ⟨y, by simp [argmaxFirst, hx, hc]⟩
      · exact ⟨x, by simp [argmaxFirst, hx, hc]⟩

theorem argmaxFirst_mem (f : Nat → Nat) :
    ∀ (l : List Nat) (y : Nat), argmaxFirst f l = some y → y ∈ l := by
  intro l
  induction l with
  | nil => intro y h; simp [argmaxFirst] at h
  | cons x xs ih =>
    intro y h
    simp only [argmaxFirst] at h
    cases hx : argmaxFirst f xs with
    | none =>
      rw [hx] at h
      injection h with h
      exact h ▸ List.mem_cons_self x xs
    | some z =>
      rw [hx] at h
      dsimp only at h
      by_cases hc : f x < f z
      · rw [if_pos hc] at h
        injection h with h
        exact h ▸ List.mem_cons_of_mem x (ih z hx)
      · rw [if_neg hc] at h
        injection h with h
        exact h ▸ List.mem_cons_self x xs

theorem extractText_length (doc : List Char) (s e : Nat)
    (he : e ≤ doc.length) : (extractText doc s e).length = e - s := by
  simp [extractText]
  omega

theorem extractText_occursAt (doc : List Char) (s e : Nat)
    (he : e ≤ doc.length) :
    occursAt doc (extractText doc s e) s = true := by
  simp only [occursAt, decide_eq_true_eq]
  rw [extractText_length doc s e he]
  rfl

end TextQuote

/-
  Claim theorems.
-/

/-- C1: whenever a recalculation pass finds that the text located at a
tracked highlight's anchor differs from the stored exact text (drift), the
overlay manager emits an update event carrying that highlight's id and the
found text to its registered update handler, so the owner can persist the
correction. -/
theorem c1_recalculation_emits_drift_update (env : CalcEnv) (st : OverlayState)
    (id newExact : String) (anchor : TextAnchor)
    (hmem : (id, anchor) ∈ st.highlights)
    (hfound : (PositionCalculator.getRectsForAnchor env anchor).foundText = some newExact)
    (hnonempty : newExact ≠ "") (hne : newExact ≠ anchor.exact) :
    ({ highlightId := id, newExact := newExact } : HighlightUpdatedEvent) ∈
      (HighlightOverlayManager.recalculateAllEvents env st).2 := by
  have hupd : (PositionCalculator.calcOne env (id, anchor)).updatedExact = some newExact := by
    rw [PositionCalculator.calcOne_eval]
    dsimp only
    rw [hfound]
    dsimp only
    rw [if_pos ⟨hnonempty, hne⟩]
  have hmem2 : PositionCalculator.calcOne env (id, anchor) ∈
      PositionCalculator.calculateAll env st.highlights :=
    List.mem_map_of_mem _ hmem
  show _ ∈ (PositionCalculator.calculateAll env st.highlights).filterMap
    (fun r => r.updatedExact.map fun s =>
      ({ highlightId := r.id, newExact := s } : HighlightUpdatedEvent))
  refine List.mem_filterMap.mpr ⟨PositionCalculator.calcOne env (id, anchor), hmem2, ?_⟩
  rw [hupd]
  rfl

/-- C1 witness: a tracked highlight whose stored exact text is found edited
produces the corresponding update event. -/
theorem c1_witness :
    ({ highlightId := hl1, newExact := foodText } : HighlightUpdatedEvent) ∈
      (HighlightOverlayManager.recalculateAllEvents envDrift stDrift).2 :=
  c1_recalculation_emits_drift_update envDrift stDrift hl1 foodText anchorFoo
    (by decide) rfl (by decide) (by decide)

/-- C2: addHighlight registers the highlight under its id and immediately
renders its overlay rectangles (the container-relative rectangles of its
anchor), leaves every other highlight's overlay untouched, and a throwing
toRange call — the recoverable condition — yields the empty sentinel render
instead of an exception escaping the public API. -/
theorem c2_addHighlight_registers_and_renders (env : CalcEnv) (st : OverlayState)
    (id : String) (anchor : TextAnchor) :
    alGet (HighlightOverlayManager.addHighlight env st id anchor).highlights id =
      some anchor ∧
    (HighlightOverlayManager.addHighlight env st id anchor).overlays id =
      PositionCalculator.toContainerRelative env
        (PositionCalculator.getRectsForAnchor env anchor).rects ∧
    (∀ k, k ≠ id →
      (HighlightOverlayManager.addHighlight env st id anchor).overlays k =
        st.overlays k) ∧
    (env.toRange anchor = Except.error () →
      (HighlightOverlayManager.addHighlight env st id anchor).overlays id = []) := by
  refine ⟨?_, ?_, ?_, ?_⟩
  · show alGet (alSet st.highlights id anchor) id = some anchor
    exact alGet_alSet_self st.highlights id anchor
  · show (if id = id then _ else _) = _
    rw [if_pos rfl]
  · intro k hk
    show (if k = id then _ else _) = _
    rw [if_neg hk]
  · intro herr
    show (if id = id then _ else _) = ([] : List DOMRect)
    rw [if_pos rfl, PositionCalculator.getRectsForAnchor_of_error env anchor herr]
    rfl

/-- C2 witness: adding a highlight in an environment whose toRange call
throws still registers it and renders the empty sentinel. -/
theorem c2_witness :
    alGet (HighlightOverlayManager.addHighlight envThrow stEmpty hl1 anchorFoo).highlights
        hl1 = some anchorFoo ∧
    (HighlightOverlayManager.addHighlight envThrow stEmpty hl1 anchorFoo).overlays hl1 = [] :=
  ⟨(c2_addHighlight_registers_and_renders envThrow stEmpty hl1 anchorFoo).1,
   (c2_addHighlight_registers_and_renders envThrow stEmpty hl1 anchorFoo).2.2.2 rfl⟩

/-- C3 (amended): calculateAll returns one result per input highlight with
the same id in order, each result a function of its own entry alone; a
result has isValid=false exactly when its rectangle list is empty — in
particular whenever the anchor fails to resolve, though a resolved anchor
whose range yields no client rectangles is also invalid-and-empty;
updatedExact is present only when resolution succeeds and the found text
differs from the stored exact; and a throwing toRange call is caught
per-anchor and turned into the not-found result for that anchor alone,
never thrown to the caller. -/
theorem c3_calculateAll_batch_contract (env : CalcEnv)
    (hs : List (String × TextAnchor)) :
    (PositionCalculator.calculateAll env hs).length = hs.length ∧
    ∀ (i : Nat) (hi : i < hs.length)
      (hi2 : i < (PositionCalculator.calculateAll env hs).length),
      (PositionCalculator.calculateAll env hs).get ⟨i, hi2⟩ =
        PositionCalculator.calcOne env (hs.get ⟨i, hi⟩) ∧
      ((PositionCalculator.calculateAll env hs).get ⟨i, hi2⟩).id =
        (hs.get ⟨i, hi⟩).1 ∧
      (((PositionCalculator.calculateAll env hs).get ⟨i, hi2⟩).isValid = false ↔
        ((PositionCalculator.calculateAll env hs).get ⟨i, hi2⟩).rects = []) ∧
      ((PositionCalculator.getRectsForAnchor env (hs.get ⟨i, hi⟩).2).foundText = none →
        ((PositionCalculator.calculateAll env hs).get ⟨i, hi2⟩).isValid = false ∧
        ((PositionCalculator.calculateAll env hs).get ⟨i, hi2⟩).rects = []) ∧
      (∀ s, ((PositionCalculator.calculateAll env hs).get ⟨i, hi2⟩).updatedExact = some s →
        (PositionCalculator.getRectsForAnchor env (hs.get ⟨i, hi⟩).2).foundText = some s ∧
        s ≠ (hs.get ⟨i, hi⟩).2.exact) ∧
      (env.toRange (hs.get ⟨i, hi⟩).2 = Except.error () →
        ((PositionCalculator.calculateAll env hs).get ⟨i, hi2⟩).rects = [] ∧
        ((PositionCalculator.calculateAll env hs).get ⟨i, hi2⟩).isValid = false) := by
  refine ⟨List.length_map hs _, ?_⟩
  intro i hi hi2
  have hget : (PositionCalculator.calculateAll env hs).get ⟨i, hi2⟩ =
      PositionCalculator.calcOne env (hs.get ⟨i, hi⟩) := by
    simp [PositionCalculator.calculateAll, List.get_eq_getElem]
  refine ⟨hget, ?_, ?_, ?_, ?_, ?_⟩
  · rw [hget, PositionCalculator.calcOne_eval]
  · rw [hget]
    exact PositionCalculator.calcOne_isValid_false_iff env _
  · intro hnone
    rw [hget]
    have h0 := PositionCalculator.calcOne_of_foundText_none env _ hnone
    exact ⟨h0.1, h0.2.1⟩
  · intro s hsome
    rw [hget] at hsome
    have h0 := PositionCalculator.calcOne_updatedExact_some env _ s hsome
    exact ⟨h0.1, h0.2.2⟩
  · intro herr
    have h0 := PositionCalculator.getRectsForAnchor_of_error env _ herr
    have hrects : (PositionCalculator.calcOne env (hs.get ⟨i, hi⟩)).rects = [] := by
      rw [PositionCalculator.calcOne_eval, h0]
      rfl
    rw [hget]
    exact ⟨hrects, (PositionCalculator.calcOne_isValid_false_iff env _).mpr hrects⟩

/-- C3 counterexample: over a resolved range with no client rectangles (text
inside a hidden element) resolution succeeds — the found text is reported —
yet the result has isValid=false and empty rects, so invalid-and-empty is
not equivalent to resolution failure. -/
theorem c3_counterexample :
    (PositionCalculator.getRectsForAnchor envHidden anchorAbc).foundText =
      some anchorAbc.exact ∧
    PositionCalculator.calculateAll envHidden [(hlA, anchorAbc)] =
      [{ id := hlA, rects := [], isValid := false, updatedExact := none }] :=
  ⟨rfl, by decide⟩

/-- C3 witness: a throwing anchor produces the empty invalid result. -/
theorem c3_witness :
    ((PositionCalculator.calculateAll envThrow [(hl1, anchorFoo)]).get
        ⟨0, by decide⟩).rects = [] ∧
    ((PositionCalculator.calculateAll envThrow [(hl1, anchorFoo)]).get
        ⟨0, by decide⟩).isValid = false :=
  ((c3_calculateAll_batch_contract envThrow [(hl1, anchorFoo)]).2 0 (by decide)
    (by decide)).2.2.2.2.2 rfl

/-- C4: findRangeFromAnchor returns a not-found null — never a thrown
exception — for a disconnected container and for a resolved range with an
endpoint outside the container, and a range it does return is exactly the
resolved live range, with both endpoints inside the connected container. -/
theorem c4_findRange_defensive (env : AnchorEnv) (anchor : TextAnchor) :
    (env.isConnected = false → AnchorUtils.findRangeFromAnchor env anchor = none) ∧
    (env.toRange anchor = Except.error () →
      AnchorUtils.findRangeFromAnchor env anchor = none) ∧
    (∀ r, env.toRange anchor = Except.ok (some r) →
      r.startInContainer = false ∨ r.endInContainer = false →
      AnchorUtils.findRangeFromAnchor env anchor = none) ∧
    (∀ r, AnchorUtils.findRangeFromAnchor env anchor = some r →
      env.isConnected = true ∧ env.toRange anchor = Except.ok (some r) ∧
      r.startInContainer = true ∧ r.endInContainer = true) := by
  refine ⟨?_, ?_, ?_, ?_⟩
  · intro h
    simp [AnchorUtils.findRangeFromAnchor, h]
  · intro h
    by_cases hc : env.isConnected = false
    · simp [AnchorUtils.findRangeFromAnchor, hc]
    · simp [AnchorUtils.findRangeFromAnchor, hc, h]
  · intro r htr hout
    by_cases hc : env.isConnected = false
    · simp [AnchorUtils.findRangeFromAnchor, hc]
    · unfold AnchorUtils.findRangeFromAnchor
      rw [if_neg hc, htr]
      dsimp only
      by_cases h1 : r.hasStartContainer = false ∨ r.hasEndContainer = false
      · rw [if_pos h1]
      · rw [if_neg h1, if_pos hout]
  · intro r h
    unfold AnchorUtils.findRangeFromAnchor at h
    by_cases hc : env.isConnected = false
    · rw [if_pos hc] at h
      simp at h
    · rw [if_neg hc] at h
      cases htr : env.toRange anchor with
      | error e =>
        rw [htr] at h
        simp at h
      | ok o =>
        cases o with
        | none =>
          rw [htr] at h
          simp at h
        | some r0 =>
          rw [htr] at h
          dsimp only at h
          by_cases h1 : r0.hasStartContainer = false ∨ r0.hasEndContainer = false
          · rw [if_pos h1] at h
            simp at h
          · rw [if_neg h1] at h
            by_cases h2 : r0.startInContainer = false ∨ r0.endInContainer = false
            · rw [if_pos h2] at h
              simp at h
            · rw [if_neg h2] at h
              obtain rfl : r0 = r := by injection h
              simp only [not_or, Bool.not_eq_false] at h2
              refine ⟨by simpa using hc, rfl, h2.1, h2.2⟩

/-- C4 witness: resolution against a disconnected container returns
not-found. -/
theorem c4_witness : AnchorUtils.findRangeFromAnchor envDisc anchorFoo = none :=
  (c4_findRange_defensive envDisc anchorFoo).1 rfl

/-- C5: createAnchorFromRange returns null whenever the exact text cannot be
extracted — a throwing capture, a null selector, or an empty exact — and
every non-null anchor it returns has a non-empty exact taken from the
selector, with absent context (a selection at a document boundary)
defaulting to the empty string. -/
theorem c5_createAnchor_contract (fr : Except Unit (Option Quote)) :
    (fr = Except.error () → AnchorUtils.createAnchorFromRange fr = none) ∧
    (fr = Except.ok none → AnchorUtils.createAnchorFromRange fr = none) ∧
    (∀ q, fr = Except.ok (some q) → q.exact = "" →
      AnchorUtils.createAnchorFromRange fr = none) ∧
    (∀ a, AnchorUtils.createAnchorFromRange fr = some a →
      a.exact ≠ "" ∧ ∃ q, fr = Except.ok (some q) ∧ a.exact = q.exact ∧
        a.pfx = q.pfx.getD emptyString ∧ a.sfx = q.sfx.getD emptyString) := by
  refine ⟨?_, ?_, ?_, ?_⟩
  · intro h
    subst h
    rfl
  · intro h
    subst h
    rfl
  · intro q h hq
    subst h
    simp [AnchorUtils.createAnchorFromRange, hq]
  · intro a h
    cases fr with
    | error e => simp [AnchorUtils.createAnchorFromRange] at h
    | ok o =>
      cases o with
      | none => simp [AnchorUtils.createAnchorFromRange] at h
      | some q =>
        unfold AnchorUtils.createAnchorFromRange at h
        dsimp only at h
        by_cases hq : q.exact ≠ ""
        · rw [if_pos hq] at h
          obtain rfl :
              ({ exact := q.exact, pfx := q.pfx.getD emptyString, sfx := q.sfx.getD emptyString } :
                TextAnchor) = a := by
            injection h
          exact ⟨hq, q, rfl, rfl, rfl, rfl⟩
        · rw [if_neg hq] at h
          simp at h

/-- C5 witness: a boundary selection with no surrounding context yields an
anchor with non-empty exact text and empty context fields. -/
theorem c5_witness :
    AnchorUtils.createAnchorFromRange (Except.ok (some quoteX)) =
      some { exact := quoteX.exact, pfx := "", sfx := "" } ∧
    quoteX.exact ≠ "" :=
  ⟨rfl,
   ((c5_createAnchor_contract (Except.ok (some quoteX))).2.2.2
      { exact := quoteX.exact, pfx := "", sfx := "" } rfl).1⟩

/-- C6: while a recalculation is already pending, scheduling another is a
no-op, so no duplicate frame callback is queued; any number of requests
arriving before the next frame queue exactly one callback, and firing that
frame executes exactly one recomputation pass. -/
theorem c6_schedule_coalesces (st : OverlayState) (n : Nat) (env : CalcEnv)
    (hp : st.pendingRecalc = false) (hf : st.scheduledFrames = 0) :
    (∀ st' : OverlayState, st'.pendingRecalc = true →
      HighlightOverlayManager.scheduleRecalculation st' = st') ∧
    (HighlightOverlayManager.scheduleRecalculation^[n + 1] st).pendingRecalc = true ∧
    (HighlightOverlayManager.scheduleRecalculation^[n + 1] st).scheduledFrames = 1 ∧
    (HighlightOverlayManager.fireFrame env
      (HighlightOverlayManager.scheduleRecalculation^[n + 1] st)).2 = 1 := by
  have h1 : HighlightOverlayManager.scheduleRecalculation st =
      { st with pendingRecalc := true, scheduledFrames := st.scheduledFrames + 1 } := by
    simp [HighlightOverlayManager.scheduleRecalculation, hp]
  have h2 : HighlightOverlayManager.scheduleRecalculation^[n + 1] st =
      { st with pendingRecalc := true, scheduledFrames := st.scheduledFrames + 1 } := by
    rw [Function.iterate_succ_apply, h1,
      HighlightOverlayManager.scheduleRecalculation_iterate_of_pending n _ rfl]
  refine ⟨fun st' h => HighlightOverlayManager.scheduleRecalculation_of_pending st' h,
    ?_, ?_, ?_⟩
  · rw [h2]
  · rw [h2]
    simp [hf]
  · rw [h2]
    show (HighlightOverlayManager.runFrameCallbacks env (st.scheduledFrames + 1) _).2 = 1
    rw [HighlightOverlayManager.runFrameCallbacks_passes, hf]

/-- C6 witness: three schedule requests before the frame queue one callback
and the frame runs one recomputation pass. -/
theorem c6_witness :
    (HighlightOverlayManager.scheduleRecalculation^[3] stEmpty).scheduledFrames = 1 ∧
    (HighlightOverlayManager.fireFrame envDrift
      (HighlightOverlayManager.scheduleRecalculation^[3] stEmpty)).2 = 1 :=
  ⟨(c6_schedule_coalesces stEmpty 2 envDrift rfl rfl).2.2.1,
   (c6_schedule_coalesces stEmpty 2 envDrift rfl rfl).2.2.2⟩

/-- C7: recalculateAll leaves the tracked-highlight map unchanged, so a
second pass over an unchanged document computes bit-identical rectangle
results and repaints to an identical overlay layer. -/
theorem c7_recalculateAll_idempotent (env : CalcEnv) (st : OverlayState) :
    (HighlightOverlayManager.recalculateAll env st).highlights = st.highlights ∧
    PositionCalculator.calculateAll env
        (HighlightOverlayManager.recalculateAll env st).highlights =
      PositionCalculator.calculateAll env st.highlights ∧
    ∀ k, (HighlightOverlayManager.recalculateAll env
        (HighlightOverlayManager.recalculateAll env st)).overlays k =
      (HighlightOverlayManager.recalculateAll env st).overlays k := by
  refine ⟨HighlightOverlayManager.recalculateAll_highlights env st, ?_, ?_⟩
  · rw [HighlightOverlayManager.recalculateAll_highlights]
  · intro k
    show (HighlightOverlayManager.applyResults
        (HighlightOverlayManager.recalculateAll env st)
        (PositionCalculator.calculateAll env
          (HighlightOverlayManager.recalculateAll env st).highlights)).overlays k =
      (HighlightOverlayManager.recalculateAll env st).overlays k
    rw [HighlightOverlayManager.recalculateAll_highlights]
    exact HighlightOverlayManager.applyResults_overlays_idem
      (PositionCalculator.calculateAll env st.highlights) st k

/-- C8: capturing an anchor from a non-empty selection and immediately
resolving it against the unmodified container yields a range whose text
equals the original selection exactly. -/
theorem c8_anchor_roundTrip (doc : List Char) (s e : Nat) (hse : s < e)
    (he : e ≤ doc.length) :
    ∃ a r,
      AnchorUtils.createAnchorFromRange
        (Except.ok (some (TextQuote.modelFromRange doc s e))) = some a ∧
      AnchorUtils.findRangeFromAnchor (TextQuote.envOfDoc doc) a = some r ∧
      r.toStringResult = String.mk (TextQuote.extractText doc s e) := by
  have hlen : (TextQuote.extractText doc s e).length = e - s :=
    TextQuote.extractText_length doc s e he
  have hne : TextQuote.extractText doc s e ≠ [] := by
    intro hnil
    rw [hnil] at hlen
    simp at hlen
    omega
  have hexact : (TextQuote.modelFromRange doc s e).exact ≠ "" := by
    intro hcon
    apply hne
    have hdata := congrArg String.data hcon
    simpa using hdata
  have hq : AnchorUtils.createAnchorFromRange
      (Except.ok (some (TextQuote.modelFromRange doc s e))) =
      some (capturedAnchor doc s e) := by
    show (if (TextQuote.modelFromRange doc s e).exact ≠ "" then
        some ({ exact := (TextQuote.modelFromRange doc s e).exact
                pfx := (TextQuote.modelFromRange doc s e).pfx.getD emptyString
                sfx := (TextQuote.modelFromRange doc s e).sfx.getD emptyString } : TextAnchor)
      else none) = some (capturedAnchor doc s e)
    rw [if_pos hexact]
    rfl
  have hocc : s ∈ TextQuote.occurrences doc (TextQuote.extractText doc s e) := by
    apply List.mem_filter.mpr
    refine ⟨List.mem_range.mpr ?_, TextQuote.extractText_occursAt doc s e he⟩
    omega
  obtain ⟨j, hj⟩ := TextQuote.argmaxFirst_of_ne_nil
    (TextQuote.contextScore doc (TextQuote.extractText doc s e)
      ((doc.take s).drop (s - TextQuote.contextLength))
      ((doc.drop e).take TextQuote.contextLength))
    (TextQuote.occurrences doc (TextQuote.extractText doc s e))
    (List.ne_nil_of_mem hocc)
  have hjmem := TextQuote.argmaxFirst_mem _ _ j hj
  have hjocc : (doc.drop j).take (TextQuote.extractText doc s e).length =
      TextQuote.extractText doc s e := by
    have hfilter := (List.mem_filter.mp hjmem).2
    simpa [TextQuote.occursAt] using hfilter
  have hnotemp : ¬((TextQuote.extractText doc s e).isEmpty = true) := by
    simpa [List.isEmpty_iff] using hne
  have hmtr : TextQuote.modelToRange doc (capturedAnchor doc s e) =
      some (j, j + (TextQuote.extractText doc s e).length) := by
    show (if (TextQuote.extractText doc s e).isEmpty then none
      else
        match TextQuote.argmaxFirst
            (TextQuote.contextScore doc (TextQuote.extractText doc s e)
              ((doc.take s).drop (s - TextQuote.contextLength))
              ((doc.drop e).take TextQuote.contextLength))
            (TextQuote.occurrences doc (TextQuote.extractText doc s e)) with
        | none => none
        | some i => some (i, i + (TextQuote.extractText doc s e).length)) =
      some (j, j + (TextQuote.extractText doc s e).length)
    rw [if_neg hnotemp, hj]
  have htr : (TextQuote.envOfDoc doc).toRange (capturedAnchor doc s e) =
      Except.ok (some (TextQuote.rangeModelOfSpan doc
        (j, j + (TextQuote.extractText doc s e).length))) := by
    show Except.ok ((TextQuote.modelToRange doc (capturedAnchor doc s e)).map
      (TextQuote.rangeModelOfSpan doc)) = _
    rw [hmtr]
    rfl
  have hconn : ¬((TextQuote.envOfDoc doc).isConnected = false) := by
    simp [TextQuote.envOfDoc]
  refine ⟨capturedAnchor doc s e,
    TextQuote.rangeModelOfSpan doc (j, j + (TextQuote.extractText doc s e).length),
    hq, ?_, ?_⟩
  · unfold AnchorUtils.findRangeFromAnchor
    rw [if_neg hconn, htr]
    dsimp only
    simp [TextQuote.rangeModelOfSpan]
  · show String.mk (TextQuote.extractText doc j
        (j + (TextQuote.extractText doc s e).length)) =
      String.mk (TextQuote.extractText doc s e)
    congr 1
    show (doc.drop j).take (j + (TextQuote.extractText doc s e).length - j) =
      TextQuote.extractText doc s e
    rw [show j + (TextQuote.extractText doc s e).length - j =
      (TextQuote.extractText doc s e).length by omega]
    exact hjocc

/-- C8 witness: the concrete scenario of spec 8 — selecting the middle words
of a short sentence — captures and resolves back to the same text. -/
theorem c8_witness :
    (10 : Nat) < 19 ∧ 19 ≤ quickDoc.length ∧
    ∃ a r,
      AnchorUtils.createAnchorFromRange
        (Except.ok (some (TextQuote.modelFromRange quickDoc 10 19))) = some a ∧
      AnchorUtils.findRangeFromAnchor (TextQuote.envOfDoc quickDoc) a = some r ∧
      r.toStringResult = String.mk (TextQuote.extractText quickDoc 10 19) :=
  ⟨by decide, by decide, c8_anchor_roundTrip quickDoc 10 19 (by decide) (by decide)⟩

/-- C9: insertAtCursor appends at the end of the content when there is no
selection or the selection is foreign to the editor — a fallback, never an
exception — and with a selection inside the editor the selected content is
deleted before the fragment is inserted at the cursor. -/
theorem c9_insertAtCursor_fallback (content html : List Char) :
    EditorController.insertAtCursor content html
        EditorController.DomSelection.noSelection = content ++ html ∧
    EditorController.insertAtCursor content html
        EditorController.DomSelection.foreign = content ++ html ∧
    ∀ b s a : List Char, content = b ++ s ++ a →
      EditorController.insertAtCursor content html
          (EditorController.DomSelection.inEditor b.length (b.length + s.length)) =
        b ++ html ++ a := by
  refine ⟨rfl, rfl, ?_⟩
  intro b s a h
  subst h
  show (b ++ s ++ a).take b.length ++ html ++
      (b ++ s ++ a).drop (b.length + s.length) = b ++ html ++ a
  have h1 : (b ++ s ++ a).take b.length = b := by
    rw [List.append_assoc]
    exact List.take_left b (s ++ a)
  have h2 : (b ++ s ++ a).drop (b.length + s.length) = a := by
    rw [← List.length_append b s]
    exact List.drop_left (b ++ s) a
  rw [h1, h2]

/-- C9 witness: concrete append fallback and delete-then-insert. -/
theorem c9_witness :
    EditorController.insertAtCursor (listB ++ listS ++ listA2) listHtml
        EditorController.DomSelection.noSelection =
      (listB ++ listS ++ listA2) ++ listHtml ∧
    EditorController.insertAtCursor (listB ++ listS ++ listA2) listHtml
        (EditorController.DomSelection.inEditor listB.length
          (listB.length + listS.length)) =
      listB ++ listHtml ++ listA2 :=
  ⟨(c9_insertAtCursor_fallback (listB ++ listS ++ listA2) listHtml).1,
   (c9_insertAtCursor_fallback (listB ++ listS ++ listA2) listHtml).2.2
      listB listS listA2 rfl⟩

/-- C10: for an id absent from the controller's highlight map, getHighlight
returns undefined, and removeHighlight and updateHighlight leave the
highlight map, every other highlight's stored fields, and the overlay
registrations and element sets of all other highlights unchanged, without
throwing; for a present id, removeHighlight removes exactly that map entry
and that highlight's overlay elements. -/
theorem c10_highlight_crud_frame (st : ECState) (id : String) (u : HighlightUpdate) :
    (alGet st.highlights id = none →
      EditorController.getHighlight st id = none ∧
      (EditorController.removeHighlight st id).highlights = st.highlights ∧
      (∀ k, k ≠ id →
        (EditorController.removeHighlight st id).overlay.overlays k =
          st.overlay.overlays k ∧
        alGet (EditorController.removeHighlight st id).overlay.highlights k =
          alGet st.overlay.highlights k) ∧
      EditorController.updateHighlight st id u = st) ∧
    (∀ h, alGet st.highlights id = some h →
      alGet (EditorController.removeHighlight st id).highlights id = none ∧
      (EditorController.removeHighlight st id).overlay.overlays id = [] ∧
      (∀ k, k ≠ id →
        alGet (EditorController.removeHighlight st id).highlights k =
          alGet st.highlights k ∧
        (EditorController.removeHighlight st id).overlay.overlays k =
          st.overlay.overlays k) ∧
      (EditorController.updateHighlight st id u).overlay = st.overlay ∧
      (∀ k, k ≠ id →
        alGet (EditorController.updateHighlight st id u).highlights k =
          alGet st.highlights k)) := by
  constructor
  · intro habs
    refine ⟨habs, alDelete_of_absent st.highlights id habs, ?_, ?_⟩
    · intro k hk
      constructor
      · show (if k = id then ([] : List DOMRect) else st.overlay.overlays k) =
          st.overlay.overlays k
        rw [if_neg hk]
      · exact alGet_alDelete_ne st.overlay.highlights id k hk
    · show (match alGet st.highlights id with
        | none => st
        | some h =>
          { st with highlights := alSet st.highlights id (objectAssign h u) }) = st
      rw [habs]
  · intro h hpres
    refine ⟨alGet_alDelete_self st.highlights id, ?_, ?_, ?_, ?_⟩
    · show (if id = id then ([] : List DOMRect) else st.overlay.overlays id) = []
      rw [if_pos rfl]
    · intro k hk
      refine ⟨alGet_alDelete_ne st.highlights id k hk, ?_⟩
      show (if k = id then ([] : List DOMRect) else st.overlay.overlays k) =
        st.overlay.overlays k
      rw [if_neg hk]
    · show (match alGet st.highlights id with
        | none => st
        | some h =>
          { st with highlights := alSet st.highlights id (objectAssign h u) }).overlay =
        st.overlay
      rw [hpres]
    · intro k hk
      show alGet (match alGet st.highlights id with
        | none => st
        | some h =>
          { st with highlights := alSet st.highlights id (objectAssign h u) }).highlights
          k = alGet st.highlights k
      rw [hpres]
      exact alGet_alSet_ne st.highlights id k _ hk

/-- C10 witness: an absent id is inert for every operation, and removing a
present id removes only that entry. -/
theorem c10_witness :
    EditorController.getHighlight ecSt idZ = none ∧
    EditorController.updateHighlight ecSt idZ updNone = ecSt ∧
    alGet (EditorController.removeHighlight ecSt hl1).highlights hl1 = none ∧
    alGet (EditorController.removeHighlight ecSt hl1).highlights hlA =
      alGet ecSt.highlights hlA := by
  have habs := (c10_highlight_crud_frame ecSt idZ updNone).1 (by decide)
  have hpres := (c10_highlight_crud_frame ecSt hl1 updNone).2 hiA (by decide)
  exact ⟨habs.1, habs.2.2.2, hpres.1, (hpres.2.2.1 hlA (by decide)).1⟩

end BrowserPal
